import Mathlib

/-!
Shallow embedding of the cryptographic / identifier core of the
ten-minute-secret repository (django-secrets), and proofs of the spec's
claims about it.

Conventions of the embedding:
* Bytes are `Nat` values; byte strings are `List Nat` (with `< 256`
  boundedness hypotheses stated where it matters).
* Python text strings are Lean `String` (payloads) or `List Char`
  (tokens and stored base64 ciphertext, whose only operations are
  character-level).
* Fallible Python code (raising exceptions) is modelled with `Option` /
  `Except`; an exception that the repository's code does not catch is an
  explicit error constructor, distinct from the caught ones.
* The cryptography library collaborators (`Fernet`, `PBKDF2HMAC.derive`)
  are modelled as explicit parameters (`FernetLike`, `kdf`) with their
  documented contract as hypotheses, because the repository's own code
  only wraps them; the PBKDF2-HMAC-SHA256 construction itself is also
  embedded concretely for the key-derivation claims.
-/

/-! ### Base64 (CPython `base64` / `binascii` semantics)

`django_secrets/utils.py` delegates to `base64.urlsafe_b64encode`,
`base64.urlsafe_b64decode` (token codec) and `base64.b64encode`,
`base64.b64decode` (ciphertext storage encoding).  `b64decode` is called
with `validate=False` (the default), i.e. CPython's lax
`binascii.a2b_base64` state machine: characters outside the alphabet are
discarded, a completing padding run ends the data early, and a final
incomplete quad raises `binascii.Error`. -/

/-- The standard base64 alphabet, in order. -/
def b64Chars : List Char :=
  "ABCDEFGHIJKLMNOPQRSTUVWXYZabcdefghijklmnopqrstuvwxyz0123456789+/".toList

/-- Value `v < 64` to alphabet character. -/
def b64EncChar (v : Nat) : Char := b64Chars.getD v '?'

/-- Alphabet character to its 6-bit value (`table_a2b_base64`); `none` for
characters outside the alphabet. -/
def b64DecVal (c : Char) : Option Nat := b64Chars.findIdx? (fun x => x == c)

/-- `base64.b64encode`: bytes to padded base64 characters, three bytes at a
time (`a/4 = a >> 2`, `a % 4 * 16 = (a & 3) << 4`, ...). -/
def b64Encode : List Nat → List Char
  | [] => []
  | [a] => [b64EncChar (a / 4), b64EncChar (a % 4 * 16), '=', '=']
  | [a, b] => [b64EncChar (a / 4), b64EncChar (a % 4 * 16 + b / 16),
               b64EncChar (b % 16 * 4), '=']
  | a :: b :: c :: rest =>
      b64EncChar (a / 4) :: b64EncChar (a % 4 * 16 + b / 16) ::
      b64EncChar (b % 16 * 4 + c / 64) :: b64EncChar (c % 64) :: b64Encode rest

/-- CPython `binascii.a2b_base64` with `strict_mode=False`, one character
per step.  State: `quadPos` = position in the current 4-character group,
`leftchar` = pending bits, `pads` = padding characters seen in this group,
`acc` = bytes emitted so far (reversed).  Division/modulus are the shift
and mask operations of the C code (`leftchar >> 4`, `leftchar & 0xf`, ...).
`none` models the `binascii.Error` raised for a trailing incomplete
quad. -/
def a2bBase64 : List Char → Nat → Nat → Nat → List Nat → Option (List Nat)
  | [], quadPos, _, _, acc => if quadPos = 0 then some acc.reverse else none
  | ch :: rest, quadPos, leftchar, pads, acc =>
    if ch = '=' then
      if 2 ≤ quadPos then
        if 4 ≤ quadPos + (pads + 1) then some acc.reverse
        else a2bBase64 rest quadPos leftchar (pads + 1) acc
      else a2bBase64 rest quadPos leftchar pads acc
    else
      match b64DecVal ch with
      | none => a2bBase64 rest quadPos leftchar pads acc
      | some v =>
        match quadPos with
        | 0 => a2bBase64 rest 1 v 0 acc
        | 1 => a2bBase64 rest 2 ((leftchar * 64 + v) % 16) 0
                 ((leftchar * 64 + v) / 16 :: acc)
        | 2 => a2bBase64 rest 3 ((leftchar * 64 + v) % 4) 0
                 ((leftchar * 64 + v) / 4 :: acc)
        | _ => a2bBase64 rest 0 0 0 ((leftchar * 64 + v) % 256 :: acc)

/-- `base64.b64decode(s.encode('ascii'))` for a text string `s`: the
`encode('ascii')` step raises (`none`) on any non-ASCII character, then
the lax base64 state machine runs. -/
def pyB64Decode (s : List Char) : Option (List Nat) :=
  if s.all (fun c => c.toNat < 128) then a2bBase64 s 0 0 0 [] else none

/-- The `-_` → `+/` translation performed by `base64.urlsafe_b64decode`. -/
def urlsafeToStd (c : Char) : Char := if c = '-' then '+' else if c = '_' then '/' else c

/-- The `+/` → `-_` translation performed by `base64.urlsafe_b64encode`. -/
def stdToUrlsafe (c : Char) : Char := if c = '+' then '-' else if c = '/' then '_' else c

/-! ### Identifier codec (`django_secrets/utils.py`: `encode_id`, `decode_id`)

A 128-bit identifier (`uuid.UUID`) is its integer value `x < 2^128`;
`uuid_id.bytes` is its 16-byte big-endian representation, and
`uuid.UUID(bytes=b)` requires `len(b) == 16`. -/

/-- Big-endian byte representation, `n` bytes (Python `UUID.bytes` with
`n = 16`). -/
def bytesBE : Nat → Nat → List Nat
  | 0, _ => []
  | n + 1, x => bytesBE n (x / 256) ++ [x % 256]

/-- Big-endian bytes back to the integer (`uuid.UUID(bytes=b).int`). -/
def natFromBytesBE (bs : List Nat) : Nat := bs.foldl (fun a b => a * 256 + b) 0

/-- `bytes.rstrip(b'=')`. -/
def stripPadRight (cs : List Char) : List Char :=
  (cs.reverse.dropWhile (fun c => c == '=')).reverse

/-- `encode_id` (django_secrets/utils.py:15-22): URL-safe base64 of the
16-byte UUID representation with trailing padding stripped. -/
def encode_id (x : Nat) : List Char :=
  stripPadRight ((b64Encode (bytesBE 16 x)).map stdToUrlsafe)

/-- The padding restoration at the top of `decode_id`
(django_secrets/utils.py:27-30): `padding = 4 - len(s) % 4`, appended only
when `padding != 4`. -/
def addPadding (cs : List Char) : List Char :=
  if cs.length % 4 = 0 then cs else cs ++ List.replicate (4 - cs.length % 4) '='

/-- `decode_id` (django_secrets/utils.py:25-36): restore padding, URL-safe
base64 decode, rebuild the UUID.  The `try/except (ValueError, Exception)`
catches every exception, so every failure is `none`. -/
def decode_id (cs : List Char) : Option Nat :=
  match pyB64Decode ((addPadding cs).map urlsafeToStd) with
  | none => none
  | some bs => if bs.length = 16 then some (natFromBytesBE bs) else none

/-! ### UTF-8 (Python `str.encode('utf-8')` / `bytes.decode('utf-8')`)

`encrypt` encodes the payload with `data.encode('utf-8')` before sealing
and `decrypt` finishes with `decrypted_bytes.decode('utf-8')` so that the
caller receives text, not bytes. -/

/-- UTF-8 encoding of one unicode scalar value (`/` and `%` are the
bit-shifts and masks of the standard encoder). -/
def utf8EncodeChar (n : Nat) : List Nat :=
  if n < 0x80 then [n]
  else if n < 0x800 then [0xC0 + n / 64, 0x80 + n % 64]
  else if n < 0x10000 then [0xE0 + n / 4096, 0x80 + n / 64 % 64, 0x80 + n % 64]
  else [0xF0 + n / 262144, 0x80 + n / 4096 % 64, 0x80 + n / 64 % 64, 0x80 + n % 64]

/-- `s.encode('utf-8')`. -/
def utf8Bytes (s : String) : List Nat :=
  (s.toList.map (fun c => utf8EncodeChar c.toNat)).flatten

/-- Validity of a decoded scalar given the length of its encoding:
rejects overlong forms, surrogates and out-of-range values, as the strict
(default-errors) Python decoder does. -/
def utf8ValidFinal (size cp : Nat) : Bool :=
  if size = 2 then decide (0x80 ≤ cp)
  else if size = 3 then decide (0x800 ≤ cp ∧ ¬(0xD800 ≤ cp ∧ cp < 0xE000))
  else decide (0x10000 ≤ cp ∧ cp < 0x110000)

/-- UTF-8 decoding state machine, one byte per step.  State: number of
continuation bytes still expected (`0`, `1`, or more), the partial code
point, the total length of the current sequence, and the emitted scalars
(reversed).  `none` models `UnicodeDecodeError`. -/
def utf8Loop : List Nat → Nat → Nat → Nat → List Nat → Option (List Nat)
  | [], 0, _, _, acc => some acc.reverse
  | [], _ + 1, _, _, _ => none
  | b :: rest, 0, _, _, acc =>
      if b < 0x80 then utf8Loop rest 0 0 0 (b :: acc)
      else if b < 0xC2 then none
      else if b < 0xE0 then utf8Loop rest 1 (b - 0xC0) 2 acc
      else if b < 0xF0 then utf8Loop rest 2 (b - 0xE0) 3 acc
      else if b < 0xF5 then utf8Loop rest 3 (b - 0xF0) 4 acc
      else none
  | b :: rest, 1, cp, size, acc =>
      if 0x80 ≤ b ∧ b < 0xC0 ∧ utf8ValidFinal size (cp * 64 + (b - 0x80)) = true then
        utf8Loop rest 0 0 0 ((cp * 64 + (b - 0x80)) :: acc)
      else none
  | b :: rest, need + 2, cp, size, acc =>
      if 0x80 ≤ b ∧ b < 0xC0 then
        utf8Loop rest (need + 1) (cp * 64 + (b - 0x80)) size acc
      else none

/-- `bs.decode('utf-8')` to unicode scalar values. -/
def utf8Decode (bs : List Nat) : Option (List Nat) := utf8Loop bs 0 0 0 []

/-- `bs.decode('utf-8')` as text. -/
def utf8DecodeStr (bs : List Nat) : Option String :=
  (utf8Decode bs).map (fun ns => String.mk (ns.map Char.ofNat))

/-! ### Key derivation (`django_secrets/utils.py`: `passphrase_to_key`)

`passphrase_to_key` runs PBKDF2-HMAC-SHA256 (length 32, 600000
iterations) on the UTF-8 passphrase with the per-record salt and encodes
the 32-byte key with `base64.urlsafe_b64encode` (the key format `Fernet`
expects).  SHA-256, HMAC and PBKDF2 are embedded concretely below; all
32-bit words are `Nat` with explicit `% 2 ^ 32`. -/

/-- 32-bit right rotation. -/
def rotr32 (x n : Nat) : Nat := (x / 2 ^ n + x % 2 ^ n * 2 ^ (32 - n)) % 2 ^ 32

/-- The SHA-256 round constants. -/
def sha256K : List Nat :=
  [1116352408, 1899447441, 3049323471, 3921009573, 961987163,
   1508970993, 2453635748, 2870763221, 3624381080, 310598401,
   607225278, 1426881987, 1925078388, 2162078206, 2614888103,
   3248222580, 3835390401, 4022224774, 264347078, 604807628,
   770255983, 1249150122, 1555081692, 1996064986, 2554220882,
   2821834349, 2952996808, 3210313671, 3336571891, 3584528711,
   113926993, 338241895, 666307205, 773529912, 1294757372,
   1396182291, 1695183700, 1986661051, 2177026350, 2456956037,
   2730485921, 2820302411, 3259730800, 3345764771, 3516065817,
   3600352804, 4094571909, 275423344, 430227734, 506948616,
   659060556, 883997877, 958139571, 1322822218, 1537002063,
   1747873779, 1955562222, 2024104815, 2227730452, 2361852424,
   2428436474, 2756734187, 3204031479, 3329325298]

/-- The SHA-256 initial state. -/
def sha256H0 : List Nat :=
  [1779033703, 3144134277, 1013904242, 2773480762,
   1359893119, 2600822924, 528734635, 1541459225]

/-- SHA-256 message padding: `0x80`, zeros, 8-byte big-endian bit length. -/
def sha256Pad (msg : List Nat) : List Nat :=
  msg ++ 0x80 :: List.replicate ((119 - msg.length % 64) % 64) 0 ++ bytesBE 8 (msg.length * 8)

/-- Split a list into chunks of `k + 1` elements. -/
def chunks (k : Nat) : List Nat → List (List Nat)
  | [] => []
  | x :: xs => (x :: xs).take (k + 1) :: chunks k ((x :: xs).drop (k + 1))
  termination_by l => l.length
  decreasing_by simp; omega

/-- Bytes to big-endian 32-bit words. -/
def wordsBE (bs : List Nat) : List Nat :=
  (chunks 3 bs).map (List.foldl (fun a b => a * 256 + b) 0)

def smallSigma0 (x : Nat) : Nat := rotr32 x 7 ^^^ rotr32 x 18 ^^^ x / 2 ^ 3

def smallSigma1 (x : Nat) : Nat := rotr32 x 17 ^^^ rotr32 x 19 ^^^ x / 2 ^ 10

def bigSigma0 (x : Nat) : Nat := rotr32 x 2 ^^^ rotr32 x 13 ^^^ rotr32 x 22

def bigSigma1 (x : Nat) : Nat := rotr32 x 6 ^^^ rotr32 x 11 ^^^ rotr32 x 25

/-- Message-schedule extension (from 16 to 64 words). -/
def sha256Extend : Nat → List Nat → List Nat
  | 0, w => w
  | n + 1, w =>
      sha256Extend n (w ++ [(smallSigma1 (w.getD (w.length - 2) 0) + w.getD (w.length - 7) 0 +
        smallSigma0 (w.getD (w.length - 15) 0) + w.getD (w.length - 16) 0) % 2 ^ 32])

/-- One SHA-256 compression round; the state is the 8-word list
`[a,b,c,d,e,f,g,h]` and `kw` the round constant paired with the schedule
word.  Bitwise complement on a 32-bit word is `2 ^ 32 - 1 - e`. -/
def sha256Round (st : List Nat) (kw : Nat × Nat) : List Nat :=
  match st with
  | [a, b, c, d, e, f, g, h] =>
      let S1 := bigSigma1 e
      let ch := (e &&& f) ^^^ ((2 ^ 32 - 1 - e) &&& g)
      let temp1 := (h + S1 + ch + kw.1 + kw.2) % 2 ^ 32
      let S0 := bigSigma0 a
      let maj := (a &&& b) ^^^ (a &&& c) ^^^ (b &&& c)
      let temp2 := (S0 + maj) % 2 ^ 32
      [(temp1 + temp2) % 2 ^ 32, a, b, c, (d + temp1) % 2 ^ 32, e, f, g]
  | other => other

/-- Process one 64-byte block. -/
def sha256Block (st : List Nat) (block : List Nat) : List Nat :=
  let w := sha256Extend 48 (wordsBE block)
  let final := (sha256K.zip w).foldl sha256Round st
  List.zipWith (fun x y => (x + y) % 2 ^ 32) st final

/-- SHA-256 of a byte string (32-byte digest).  Checked against the FIPS
test vectors for the empty string and `"abc"`. -/
def sha256 (msg : List Nat) : List Nat :=
  (((chunks 63 (sha256Pad msg)).foldl sha256Block sha256H0).map (bytesBE 4)).flatten

/-- HMAC-SHA256 (RFC 2104, block size 64). -/
def hmacSha256 (key msg : List Nat) : List Nat :=
  let k0 := if 64 < key.length then sha256 key else key
  let k1 := k0 ++ List.replicate (64 - k0.length) 0
  sha256 (k1.map (fun b => b ^^^ 0x5C) ++ sha256 (k1.map (fun b => b ^^^ 0x36) ++ msg))

/-- The iterated xor of `U_2 ... U_c` in PBKDF2. -/
def pbkdf2Xor : Nat → List Nat → List Nat → List Nat → List Nat
  | 0, _, _, acc => acc
  | n + 1, password, u, acc =>
      let u2 := hmacSha256 password u
      pbkdf2Xor n password u2 (List.zipWith (fun a b => a ^^^ b) acc u2)

/-- PBKDF2-HMAC-SHA256 with derived-key length 32 (a single hash-output
block, so only block index 1 is needed).  Checked against the RFC 6070
style test vectors for 1 and 2 iterations. -/
def pbkdf2HmacSha256 (password salt : List Nat) (iterations : Nat) : List Nat :=
  let u1 := hmacSha256 password (salt ++ bytesBE 4 1)
  pbkdf2Xor (iterations - 1) password u1 u1

/-- `passphrase_to_key` (django_secrets/utils.py:39-52): PBKDF2HMAC with
SHA-256, length 32, the given salt, 600000 iterations, applied to the
UTF-8 passphrase; the key is then `base64.urlsafe_b64encode`-d (a 44-byte
ASCII byte string, the `Fernet` key format). -/
def passphrase_to_key (passphrase : String) (salt : List Nat) : List Nat :=
  ((b64Encode (pbkdf2HmacSha256 (utf8Bytes passphrase) salt 600000)).map stdToUrlsafe).map
    Char.toNat

/-- The process-wide Django state an insecure derivation could have read
(the precursor design derived keys from `settings.SECRET_KEY`). -/
structure DjangoSettings where
  SECRET_KEY : String
  deriving DecidableEq

/-- `passphrase_to_key` as seen by a caller running inside a Django
process: the process environment is in scope, but the function body
(django_secrets/utils.py:44-52) mentions only the passphrase, the salt
and fixed constants — it does not read `env`.  This wrapper makes that
independence statable. -/
def passphrase_to_key_in_env (env : DjangoSettings) (passphrase : String)
    (salt : List Nat) : List Nat :=
  passphrase_to_key passphrase salt

/-! ### Authenticated cipher (`django_secrets/utils.py`: `encrypt`, `decrypt`)

`Fernet` is a collaborator from the `cryptography` package (AES-128-CBC
plus HMAC-SHA256 inside an authenticated token).  It is modelled as an
explicit parameter: an encryption map and a decryption map where `none`
is the `InvalidToken` exception (`Fernet.decrypt` converts every internal
failure — bad framing, MAC mismatch, bad padding — into `InvalidToken`).
Its documented contract (decryption inverts encryption under the same
key, tokens are bytes) is the `Sound` predicate. -/

structure FernetLike where
  enc : List Nat → List Nat → List Nat
  dec : List Nat → List Nat → Option (List Nat)

/-- The documented behaviour of `Fernet` used by the proofs. -/
structure FernetLike.Sound (F : FernetLike) : Prop where
  dec_enc : ∀ k p, F.dec k (F.enc k p) = some p
  enc_bytes : ∀ k p, (∀ b ∈ k, b < 256) → (∀ b ∈ p, b < 256) → ∀ b ∈ F.enc k p, b < 256

/-- The ways `decrypt` can fail.  Only `invalidToken`
(`cryptography.fernet.InvalidToken`) is ever caught by the repository's
code; `binasciiError` (`binascii.Error` / `UnicodeEncodeError` from the
storage-encoding step) and `unicodeError` (`UnicodeDecodeError` from the
final `.decode('utf-8')`) propagate to the caller. -/
inductive DecryptError where
  | invalidToken
  | binasciiError
  | unicodeError
  deriving DecidableEq, Repr

/-- `encrypt` (django_secrets/utils.py:55-64): derive the key, UTF-8
encode the payload, seal it with Fernet, and base64-encode the token for
storage in a `TextField`.  Parametric in the key-derivation function
`kdf` (instantiated with `passphrase_to_key`; kept as a parameter so that
concrete executions stay kernel-computable). -/
def encrypt (F : FernetLike) (kdf : String → List Nat → List Nat)
    (data passphrase : String) (salt : List Nat) : List Char :=
  b64Encode (F.enc (kdf passphrase salt) (utf8Bytes data))

/-- `decrypt` (django_secrets/utils.py:67-80): derive the key, decode the
storage base64 layer, `Fernet.decrypt`, and decode the plaintext bytes as
UTF-8 so the caller gets text. -/
def decrypt (F : FernetLike) (kdf : String → List Nat → List Nat)
    (token : List Char) (passphrase : String) (salt : List Nat) :
    Except DecryptError String :=
  match pyB64Decode token with
  | none => .error .binasciiError
  | some tokenBytes =>
    match F.dec (kdf passphrase salt) tokenBytes with
    | none => .error .invalidToken
    | some plainBytes =>
      match utf8DecodeStr plainBytes with
      | none => .error .unicodeError
      | some s => .ok s

/-! ### Secret lifecycle

The stored record (django_secrets/models.py:11-25): a 128-bit `id`
primary key, the base64 ciphertext `data` in a text column, the 16-byte
`salt`, and the `created_at` timestamp (modelled as seconds, `Int`).
There is no consumed flag and no read counter: consumption is deletion of
the row.

The storage is a list of records.  `AvailableManager.get_queryset`
filters it to records whose `created_at` is at least `now` minus 10
minutes (`created_at__gte = now - timedelta(minutes=10)`,
secrets/managers.py:9-13; the legacy `views__exact=0` conjunct has no
counterpart because the current model has no `views` field — a consumed
record is deleted instead, django_secrets/views.py:44). -/

structure SecretRec where
  id : Nat
  data : List Char
  salt : List Nat
  created_at : Int
  deriving DecidableEq, Repr

/-- The 10-minute availability window, in seconds. -/
def expirationWindow : Int := 600

/-- `Secret.available` — the queryset produced by
`AvailableManager.get_queryset` at time `now`. -/
def availableFilter (now : Int) (store : List SecretRec) : List SecretRec :=
  store.filter (fun r => decide (now - expirationWindow ≤ r.created_at))

/-- `self.object.delete()`: remove the row with the given primary key. -/
def removeId (store : List SecretRec) (pk : Nat) : List SecretRec :=
  store.filter (fun r => decide (¬ r.id = pk))

/-- Validation failure at create time (`forms.ValidationError` for an
oversized payload, secrets/forms.py:44-47). -/
inductive CreateError where
  | tooLarge
  deriving DecidableEq, Repr

/-- `SecretCreateForm.clean_data` (secrets/forms.py:39-49): measure the
UTF-8 byte length of the payload, reject anything above `50 * 1024`
bytes with a `ValidationError`, and return the payload unchanged. -/
def clean_data (data : String) : Except CreateError String :=
  if 50 * 1024 < (utf8Bytes data).length then .error .tooLarge else .ok data

/-- Outcome of one reveal request, as observable by the client. -/
inductive RevealOutcome where
  | notFound
  | wrongPassphrase
  | serverError (e : DecryptError)
  | revealed (plaintext : String)
  deriving DecidableEq, Repr

/-- How form validation can fail: the single uniform
`ValidationError("Oops! Double check that passphrase")` raised for
`InvalidToken`, or an exception the `try/except InvalidToken` does not
catch, which propagates out of the form. -/
inductive CleanError where
  | validationError
  | uncaught (e : DecryptError)
  deriving DecidableEq, Repr

/-- Decidable equality of `Except` results, for evaluating concrete
outcomes. -/
instance {e a : Type} [DecidableEq e] [DecidableEq a] : DecidableEq (Except e a) := fun x y =>
  match x, y with
  | .ok u, .ok v => decidable_of_iff (u = v) (by simp)
  | .error u, .error v => decidable_of_iff (u = v) (by simp)
  | .ok _, .error _ => .isFalse (by intro h; cases h)
  | .error _, .ok _ => .isFalse (by intro h; cases h)

/-- `SecretUpdateForm.clean_passphrase` (secrets/forms.py:76-84, with the
record's stored salt routed to `decrypt` as in the salted
`decrypt(token, passphrase, salt)` signature that
django_secrets/tests.py:283 pins down): attempt decryption; only
`InvalidToken` is caught and becomes the uniform `ValidationError`
("Oops! Double check that passphrase"); any other exception propagates;
success stores the plaintext on the instance without touching the
database. -/
def clean_passphrase (F : FernetLike) (kdf : String → List Nat → List Nat)
    (r : SecretRec) (passphrase : String) : Except CleanError String :=
  match decrypt F kdf r.data passphrase r.salt with
  | .ok s => .ok s
  | .error .invalidToken => .error .validationError
  | .error e => .error (.uncaught e)

/-- One reveal request against the store
(`SecretUpdateView` with `KnuthIdMixin`, django_secrets/views.py:22-48
and django_secrets/mixins.py:11-35):

1. decode the URL token (`decode_id`); failure raises `Http404`;
2. look the primary key up in the `Secret.available` queryset as of the
   lookup instant `tLookup`; no match raises `Http404`;
3. run form validation (`clean_passphrase`): `InvalidToken` re-renders
   the form with a validation error and changes nothing; any other
   exception is an unhandled server error and changes nothing;
4. `form_valid` re-checks expiration at the render instant `tReveal`
   (`created_at < now - timedelta(minutes=10)`): if expired, delete the
   row and raise `Http404`; otherwise delete the row and render the
   plaintext.

Records are looked up by primary key, which is unique, so the first
match is the row `queryset.get()` returns. -/
def reveal (F : FernetLike) (kdf : String → List Nat → List Nat)
    (store : List SecretRec) (tLookup tReveal : Int)
    (token : List Char) (passphrase : String) : RevealOutcome × List SecretRec :=
  match decode_id token with
  | none => (.notFound, store)
  | some pk =>
    match (availableFilter tLookup store).find? (fun r => r.id == pk) with
    | none => (.notFound, store)
    | some r =>
      match clean_passphrase F kdf r passphrase with
      | .error .validationError => (.wrongPassphrase, store)
      | .error (.uncaught e) => (.serverError e, store)
      | .ok plain =>
        if r.created_at < tReveal - expirationWindow then (.notFound, removeId store r.id)
        else (.revealed plain, removeId store r.id)

/-- The create operation (`SecretCreateForm.clean_data` and `.save`;
the save path of the current app generates a fresh UUID and salt and
seals the payload — django_secrets/forms.py is absent from the source
tree, so the salt/id generation is modelled from the spec and pinned by
django_secrets/tests.py:79-98.  Randomness is modelled by passing the
generated identifier and salt as arguments).  Size validation happens
before any sealing; on failure nothing is stored. -/
def create_secret (F : FernetLike) (kdf : String → List Nat → List Nat)
    (data passphrase : String) (newId : Nat) (newSalt : List Nat) (now : Int)
    (store : List SecretRec) : Except CreateError (SecretRec × List SecretRec) :=
  match clean_data data with
  | .error e => .error e
  | .ok d =>
      let r : SecretRec := ⟨newId, encrypt F kdf d passphrase newSalt, newSalt, now⟩
      .ok (r, r :: store)

/-! ### Concrete instances used to exercise the model

A minimal `FernetLike` instance (tag the token with the key, check the
tag on decryption) and a minimal key-derivation function.  They satisfy
the collaborator contract and keep concrete executions kernel-computable;
they are used only to instantiate theorems at specific inputs. -/

def tagFernet : FernetLike where
  enc k p := k ++ p
  dec k bs := if bs.take k.length = k then some (bs.drop k.length) else none

def bytesKdf (passphrase : String) (salt : List Nat) : List Nat :=
  utf8Bytes passphrase ++ salt

/-! ## Theorems -/

theorem tagFernet_sound : tagFernet.Sound where
  dec_enc := by
    intro k p
    simp [tagFernet]
  enc_bytes := by
    intro k p hk hp b hb
    rcases List.mem_append.1 hb with h | h
    · exact hk b h
    · exact hp b h

theorem utf8EncodeChar_lt (n : Nat) (h : n < 0x110000) :
    ∀ b ∈ utf8EncodeChar n, b < 256 := by
  intro b hb
  unfold utf8EncodeChar at hb
  split at hb
  · simp at hb
    omega
  · split at hb
    · simp at hb
      rcases hb with h1 | h1 <;> omega
    · split at hb
      · simp at hb
        rcases hb with h1 | h1 | h1 <;> omega
      · simp at hb
        rcases hb with h1 | h1 | h1 | h1 <;> omega

theorem char_toNat_lt (c : Char) : c.toNat < 0x110000 := by
  have hv : c.toNat < 0xD800 ∨ (0xE000 ≤ c.toNat ∧ c.toNat < 0x110000) := c.valid
  omega

theorem utf8Bytes_lt (s : String) : ∀ b ∈ utf8Bytes s, b < 256 := by
  intro b hb
  rcases List.mem_flatten.1 hb with ⟨l, hl, hbl⟩
  rcases List.mem_map.1 hl with ⟨c, _, rfl⟩
  exact utf8EncodeChar_lt c.toNat (char_toNat_lt c) b hbl

theorem bytesKdf_bytes (passphrase : String) (salt : List Nat)
    (hs : ∀ b ∈ salt, b < 256) : ∀ b ∈ bytesKdf passphrase salt, b < 256 := by
  intro b hb
  rcases List.mem_append.1 hb with h | h
  · exact utf8Bytes_lt passphrase b h
  · exact hs b h

/-! ### Base64 helper lemmas -/

theorem b64DecVal_encChar : ∀ v, v < 64 → b64DecVal (b64EncChar v) = some v := by decide

theorem b64EncChar_ne_pad : ∀ v, v < 64 → ¬ b64EncChar v = '=' := by decide

theorem b64EncChar_ascii : ∀ v, v < 64 → (b64EncChar v).toNat < 128 := by decide

theorem urlsafe_roundtrip_encChar :
    ∀ v, v < 64 → urlsafeToStd (stdToUrlsafe (b64EncChar v)) = b64EncChar v := by decide

theorem stdToUrlsafe_encChar_ne_pad :
    ∀ v, v < 64 → ¬ stdToUrlsafe (b64EncChar v) = '=' := by decide

theorem stdToUrlsafe_encChar_ascii :
    ∀ v, v < 64 → (stdToUrlsafe (b64EncChar v)).toNat < 128 := by decide

theorem a2bBase64_step0 (ch : Char) (v : Nat) (rest : List Char) (l pads : Nat)
    (acc : List Nat) (hch : ¬ ch = '=') (hv : b64DecVal ch = some v) :
    a2bBase64 (ch :: rest) 0 l pads acc = a2bBase64 rest 1 v 0 acc := by
  rw [a2bBase64, if_neg hch, hv]

theorem a2bBase64_step1 (ch : Char) (v : Nat) (rest : List Char) (l pads : Nat)
    (acc : List Nat) (hch : ¬ ch = '=') (hv : b64DecVal ch = some v) :
    a2bBase64 (ch :: rest) 1 l pads acc
      = a2bBase64 rest 2 ((l * 64 + v) % 16) 0 ((l * 64 + v) / 16 :: acc) := by
  rw [a2bBase64, if_neg hch, hv]

theorem a2bBase64_step2 (ch : Char) (v : Nat) (rest : List Char) (l pads : Nat)
    (acc : List Nat) (hch : ¬ ch = '=') (hv : b64DecVal ch = some v) :
    a2bBase64 (ch :: rest) 2 l pads acc
      = a2bBase64 rest 3 ((l * 64 + v) % 4) 0 ((l * 64 + v) / 4 :: acc) := by
  rw [a2bBase64, if_neg hch, hv]

theorem a2bBase64_step3 (ch : Char) (v : Nat) (rest : List Char) (l pads : Nat)
    (acc : List Nat) (hch : ¬ ch = '=') (hv : b64DecVal ch = some v) :
    a2bBase64 (ch :: rest) 3 l pads acc
      = a2bBase64 rest 0 0 0 ((l * 64 + v) % 256 :: acc) := by
  rw [a2bBase64, if_neg hch, hv]

theorem a2bBase64_pad_cont (rest : List Char) (l : Nat) (acc : List Nat) :
    a2bBase64 ('=' :: rest) 2 l 0 acc = a2bBase64 rest 2 l 1 acc := by
  rw [a2bBase64, if_pos rfl, if_pos (by omega), if_neg (by omega)]

theorem a2bBase64_pad_done2 (rest : List Char) (l : Nat) (acc : List Nat) :
    a2bBase64 ('=' :: rest) 2 l 1 acc = some acc.reverse := by
  rw [a2bBase64, if_pos rfl, if_pos (by omega), if_pos (by omega)]

theorem a2bBase64_pad_done3 (rest : List Char) (l : Nat) (acc : List Nat) :
    a2bBase64 ('=' :: rest) 3 l 0 acc = some acc.reverse := by
  rw [a2bBase64, if_pos rfl, if_pos (by omega), if_pos (by omega)]

/-- The lax decoder inverts `b64Encode`, for any accumulator. -/
theorem a2bBase64_b64Encode (bs : List Nat) (hb : ∀ b ∈ bs, b < 256) (acc : List Nat) :
    a2bBase64 (b64Encode bs) 0 0 0 acc = some (acc.reverse ++ bs) := by
  induction bs using b64Encode.induct generalizing acc with
  | case1 =>
      rw [b64Encode, a2bBase64, if_pos rfl]
      simp
  | case2 a =>
      have ha : a < 256 := hb a (by simp)
      rw [b64Encode,
        a2bBase64_step0 _ _ _ _ _ _ (b64EncChar_ne_pad _ (by omega)) (b64DecVal_encChar _ (by omega)),
        a2bBase64_step1 _ _ _ _ _ _ (b64EncChar_ne_pad _ (by omega)) (b64DecVal_encChar _ (by omega)),
        show (a / 4 * 64 + a % 4 * 16) / 16 = a by omega,
        show (a / 4 * 64 + a % 4 * 16) % 16 = 0 by omega,
        a2bBase64_pad_cont, a2bBase64_pad_done2]
      simp
  | case3 a b =>
      have ha : a < 256 := hb a (by simp)
      have hbb : b < 256 := hb b (by simp)
      rw [b64Encode,
        a2bBase64_step0 _ _ _ _ _ _ (b64EncChar_ne_pad _ (by omega)) (b64DecVal_encChar _ (by omega)),
        a2bBase64_step1 _ _ _ _ _ _ (b64EncChar_ne_pad _ (by omega)) (b64DecVal_encChar _ (by omega)),
        show (a / 4 * 64 + (a % 4 * 16 + b / 16)) / 16 = a by omega,
        show (a / 4 * 64 + (a % 4 * 16 + b / 16)) % 16 = b / 16 by omega,
        a2bBase64_step2 _ _ _ _ _ _ (b64EncChar_ne_pad _ (by omega)) (b64DecVal_encChar _ (by omega)),
        show (b / 16 * 64 + b % 16 * 4) / 4 = b by omega,
        a2bBase64_pad_done3]
      simp
  | case4 a b c rest ih =>
      have ha : a < 256 := hb a (by simp)
      have hbb : b < 256 := hb b (by simp)
      have hc : c < 256 := hb c (by simp)
      rw [b64Encode,
        a2bBase64_step0 _ _ _ _ _ _ (b64EncChar_ne_pad _ (by omega)) (b64DecVal_encChar _ (by omega)),
        a2bBase64_step1 _ _ _ _ _ _ (b64EncChar_ne_pad _ (by omega)) (b64DecVal_encChar _ (by omega)),
        show (a / 4 * 64 + (a % 4 * 16 + b / 16)) / 16 = a by omega,
        show (a / 4 * 64 + (a % 4 * 16 + b / 16)) % 16 = b / 16 by omega,
        a2bBase64_step2 _ _ _ _ _ _ (b64EncChar_ne_pad _ (by omega)) (b64DecVal_encChar _ (by omega)),
        show (b / 16 * 64 + (b % 16 * 4 + c / 64)) / 4 = b by omega,
        show (b / 16 * 64 + (b % 16 * 4 + c / 64)) % 4 = c / 64 by omega,
        a2bBase64_step3 _ _ _ _ _ _ (b64EncChar_ne_pad _ (by omega)) (b64DecVal_encChar _ (by omega)),
        show (c / 64 * 64 + c % 64) % 256 = c by omega,
        ih (fun x hx => hb x (by simp [hx]))]
      simp

/-- When the byte count is `≡ 1 (mod 3)`, the encoding is alphabet
characters followed by exactly two padding characters. -/
theorem b64Encode_mod3_one (bs : List Nat) (hb : ∀ b ∈ bs, b < 256) (hlen : bs.length % 3 = 1) :
    ∃ front, b64Encode bs = front ++ ['=', '='] ∧ front.length = bs.length / 3 * 4 + 2 ∧
      ∀ c ∈ front, ∃ v, v < 64 ∧ c = b64EncChar v := by
  induction bs using b64Encode.induct with
  | case1 => simp at hlen
  | case2 a =>
      have ha : a < 256 := hb a (by simp)
      refine ⟨[b64EncChar (a / 4), b64EncChar (a % 4 * 16)], by rw [b64Encode]; rfl, by simp, ?_⟩
      intro c hc
      simp only [List.mem_cons, List.not_mem_nil, or_false] at hc
      rcases hc with h | h
      · exact ⟨a / 4, by omega, h⟩
      · exact ⟨a % 4 * 16, by omega, h⟩
  | case3 a b => simp at hlen
  | case4 a b c rest ih =>
      have ha : a < 256 := hb a (by simp)
      have hbb : b < 256 := hb b (by simp)
      have hc : c < 256 := hb c (by simp)
      have hlen' : rest.length % 3 = 1 := by
        simp at hlen
        omega
      obtain ⟨front, he, hl, hm⟩ := ih (fun x hx => hb x (by simp [hx])) hlen'
      refine ⟨b64EncChar (a / 4) :: b64EncChar (a % 4 * 16 + b / 16) ::
        b64EncChar (b % 16 * 4 + c / 64) :: b64EncChar (c % 64) :: front, ?_, ?_, ?_⟩
      · rw [b64Encode, he]
        rfl
      · simp [hl]
        omega
      · intro ch hch
        simp only [List.mem_cons] at hch
        rcases hch with h | h | h | h | h
        · exact ⟨a / 4, by omega, h⟩
        · exact ⟨a % 4 * 16 + b / 16, by omega, h⟩
        · exact ⟨b % 16 * 4 + c / 64, by omega, h⟩
        · exact ⟨c % 64, by omega, h⟩
        · exact hm ch h

theorem stripPadRight_append_pads (cs : List Char) (k : Nat) (h : ∀ c ∈ cs, ¬ c = '=') :
    stripPadRight (cs ++ List.replicate k '=') = cs := by
  unfold stripPadRight
  rw [List.reverse_append, List.reverse_replicate]
  have h1 : ∀ m, List.dropWhile (fun c => c == '=') (List.replicate m '=' ++ cs.reverse)
      = List.dropWhile (fun c => c == '=') cs.reverse := by
    intro m
    induction m with
    | zero => simp
    | succ n ih => simp [List.replicate_succ, List.dropWhile_cons, ih]
  rw [h1]
  have h2 : List.dropWhile (fun c => c == '=') cs.reverse = cs.reverse := by
    cases hrev : cs.reverse with
    | nil => simp
    | cons c l =>
        have hmem : c ∈ cs := List.mem_reverse.1 (by rw [hrev]; simp)
        simp [List.dropWhile_cons, h c hmem]
  rw [h2, List.reverse_reverse]

theorem bytesBE_length (n x : Nat) : (bytesBE n x).length = n := by
  induction n generalizing x with
  | zero => rfl
  | succ m ih => simp [bytesBE, ih]

theorem bytesBE_lt (n x : Nat) : ∀ b ∈ bytesBE n x, b < 256 := by
  induction n generalizing x with
  | zero => simp [bytesBE]
  | succ m ih =>
      intro b hb
      rw [bytesBE] at hb
      rcases List.mem_append.1 hb with h | h
      · exact ih (x / 256) b h
      · simp at h
        omega

theorem natFromBytesBE_bytesBE (n x : Nat) : natFromBytesBE (bytesBE n x) = x % 256 ^ n := by
  induction n generalizing x with
  | zero => simp [bytesBE, natFromBytesBE, Nat.mod_one]
  | succ m ih =>
      rw [bytesBE, natFromBytesBE, List.foldl_append]
      have : (bytesBE m (x / 256)).foldl (fun a b => a * 256 + b) 0
          = natFromBytesBE (bytesBE m (x / 256)) := rfl
      rw [this, ih]
      simp only [List.foldl_cons, List.foldl_nil]
      rw [pow_succ, Nat.mul_comm (256 ^ m) 256, Nat.mod_mul]
      omega

set_option maxHeartbeats 1000000 in
/-- The full codec round trip, as a reusable equation. -/
theorem decode_id_encode_id (x : Nat) (hx : x < 2 ^ 128) : decode_id (encode_id x) = some x := by
  have hlen : (bytesBE 16 x).length = 16 := bytesBE_length 16 x
  have hlt := bytesBE_lt 16 x
  obtain ⟨front, he, hfl, hfm⟩ := b64Encode_mod3_one (bytesBE 16 x) hlt (by rw [hlen])
  have hfl22 : front.length = 22 := by
    rw [hfl, hlen]
  have hmapne : ∀ c ∈ front.map stdToUrlsafe, ¬ c = '=' := by
    intro c hc
    rcases List.mem_map.1 hc with ⟨c0, hc0, rfl⟩
    obtain ⟨v, hv, rfl⟩ := hfm c0 hc0
    exact stdToUrlsafe_encChar_ne_pad v hv
  have henc : encode_id x = front.map stdToUrlsafe := by
    rw [encode_id, he, List.map_append,
      show List.map stdToUrlsafe ['=', '='] = List.replicate 2 '=' from rfl,
      stripPadRight_append_pads _ _ hmapne]
  have hback : (front.map stdToUrlsafe).map urlsafeToStd = front := by
    rw [List.map_map]
    have hcong : ∀ c ∈ front, (urlsafeToStd ∘ stdToUrlsafe) c = c := by
      intro c hc
      obtain ⟨v, hv, rfl⟩ := hfm c hc
      exact urlsafe_roundtrip_encChar v hv
    calc front.map (urlsafeToStd ∘ stdToUrlsafe) = front.map id := List.map_congr_left hcong
      _ = front := List.map_id front
  have hascii : (b64Encode (bytesBE 16 x)).all (fun c => decide (c.toNat < 128)) = true := by
    rw [List.all_eq_true]
    intro c hc
    rw [he] at hc
    rcases List.mem_append.1 hc with h | h
    · obtain ⟨v, hv, rfl⟩ := hfm c h
      simpa using b64EncChar_ascii v hv
    · have hceq : c = '=' := by
        simp only [List.mem_cons, List.not_mem_nil, or_false] at h
        rcases h with h1 | h1 <;> exact h1
      rw [hceq]
      decide
  have hchain : pyB64Decode ((addPadding (encode_id x)).map urlsafeToStd)
      = some (bytesBE 16 x) := by
    rw [henc, addPadding, if_neg (by simp [hfl22]), List.map_append,
      show (front.map stdToUrlsafe).length = 22 by simp [hfl22],
      show ((4 : Nat) - 22 % 4) = 2 from rfl,
      show List.map urlsafeToStd (List.replicate 2 '=') = List.replicate 2 '=' from rfl,
      hback,
      show (List.replicate 2 '=') = ['=', '='] from rfl, ← he, pyB64Decode, if_pos hascii,
      a2bBase64_b64Encode _ hlt]
    simp
  rw [decode_id, hchain]
  simp only [hlen, if_pos]
  rw [natFromBytesBE_bytesBE,
    show (256 : Nat) ^ 16 = 2 ^ 128 by norm_num,
    Nat.mod_eq_of_lt hx]

/-! ### UTF-8 helper lemmas -/

theorem char_ofNat_toNat (c : Char) : Char.ofNat c.toNat = c := by
  have h : c.toNat.isValidChar := c.valid
  simp only [Char.ofNat, dif_pos h]
  apply Char.ext
  simp only [Char.ofNatAux, Char.toNat, UInt32.toNat]
  apply UInt32.ext
  simp only [BitVec.ofNatLt]
  rfl

theorem utf8ValidFinal_two (cp : Nat) (h : 0x80 ≤ cp) : utf8ValidFinal 2 cp = true := by
  simp [utf8ValidFinal]
  omega

theorem utf8ValidFinal_three (cp : Nat) (h : 0x800 ≤ cp)
    (hs : ¬(0xD800 ≤ cp ∧ cp < 0xE000)) : utf8ValidFinal 3 cp = true := by
  simp [utf8ValidFinal]
  omega

theorem utf8ValidFinal_four (cp : Nat) (h : 0x10000 ≤ cp) (h2 : cp < 0x110000) :
    utf8ValidFinal 4 cp = true := by
  simp [utf8ValidFinal]
  omega

/-- Decoding steps over one encoded scalar and emits it. -/
theorem utf8Loop_encodeChar (n : Nat) (hv : n < 0xD800 ∨ (0xE000 ≤ n ∧ n < 0x110000))
    (rest acc : List Nat) :
    utf8Loop (utf8EncodeChar n ++ rest) 0 0 0 acc = utf8Loop rest 0 0 0 (n :: acc) := by
  unfold utf8EncodeChar
  by_cases h1 : n < 0x80
  · rw [if_pos h1, List.cons_append, List.nil_append, utf8Loop, if_pos h1]
  · by_cases h2 : n < 0x800
    · have hc : 0x80 ≤ 0x80 + n % 64 ∧ 0x80 + n % 64 < 0xC0 ∧
          utf8ValidFinal 2 ((0xC0 + n / 64 - 0xC0) * 64 + (0x80 + n % 64 - 0x80)) = true :=
        ⟨by omega, by omega, utf8ValidFinal_two _ (by omega)⟩
      rw [if_neg h1, if_pos h2, List.cons_append, List.cons_append, List.nil_append,
        utf8Loop, if_neg (by omega), if_neg (by omega), if_pos (by omega),
        utf8Loop, if_pos hc,
        show (0xC0 + n / 64 - 0xC0) * 64 + (0x80 + n % 64 - 0x80) = n by omega]
    · by_cases h3 : n < 0x10000
      · have hm : 0x80 ≤ 0x80 + n / 64 % 64 ∧ 0x80 + n / 64 % 64 < 0xC0 :=
          ⟨by omega, by omega⟩
        have hc : 0x80 ≤ 0x80 + n % 64 ∧ 0x80 + n % 64 < 0xC0 ∧
            utf8ValidFinal 3 (((0xE0 + n / 4096 - 0xE0) * 64 + (0x80 + n / 64 % 64 - 0x80)) * 64 +
              (0x80 + n % 64 - 0x80)) = true :=
          ⟨by omega, by omega, utf8ValidFinal_three _ (by omega) (by omega)⟩
        rw [if_neg h1, if_neg h2, if_pos h3, List.cons_append, List.cons_append,
          List.cons_append, List.nil_append,
          utf8Loop, if_neg (by omega), if_neg (by omega), if_neg (by omega), if_pos (by omega),
          utf8Loop, if_pos hm,
          utf8Loop, if_pos hc,
          show ((0xE0 + n / 4096 - 0xE0) * 64 + (0x80 + n / 64 % 64 - 0x80)) * 64 +
            (0x80 + n % 64 - 0x80) = n by omega]
      · have hm1 : 0x80 ≤ 0x80 + n / 4096 % 64 ∧ 0x80 + n / 4096 % 64 < 0xC0 :=
          ⟨by omega, by omega⟩
        have hm2 : 0x80 ≤ 0x80 + n / 64 % 64 ∧ 0x80 + n / 64 % 64 < 0xC0 :=
          ⟨by omega, by omega⟩
        have hc : 0x80 ≤ 0x80 + n % 64 ∧ 0x80 + n % 64 < 0xC0 ∧
            utf8ValidFinal 4 ((((0xF0 + n / 262144 - 0xF0) * 64 + (0x80 + n / 4096 % 64 - 0x80)) *
              64 + (0x80 + n / 64 % 64 - 0x80)) * 64 + (0x80 + n % 64 - 0x80)) = true :=
          ⟨by omega, by omega, utf8ValidFinal_four _ (by omega) (by omega)⟩
        rw [if_neg h1, if_neg h2, if_neg h3, List.cons_append, List.cons_append,
          List.cons_append, List.cons_append, List.nil_append,
          utf8Loop, if_neg (by omega), if_neg (by omega), if_neg (by omega),
          if_neg (by omega), if_pos (by omega),
          utf8Loop, if_pos hm1,
          utf8Loop, if_pos hm2,
          utf8Loop, if_pos hc,
          show (((0xF0 + n / 262144 - 0xF0) * 64 + (0x80 + n / 4096 % 64 - 0x80)) * 64 +
            (0x80 + n / 64 % 64 - 0x80)) * 64 + (0x80 + n % 64 - 0x80) = n by omega]

theorem utf8Loop_bytes (cs : List Char) (acc : List Nat) :
    utf8Loop ((cs.map (fun c => utf8EncodeChar c.toNat)).flatten) 0 0 0 acc
      = some (acc.reverse ++ cs.map Char.toNat) := by
  induction cs generalizing acc with
  | nil => simp [utf8Loop]
  | cons c rest ih =>
      have hv : c.toNat < 0xD800 ∨ (0xE000 ≤ c.toNat ∧ c.toNat < 0x110000) := c.valid
      rw [List.map_cons, List.flatten_cons, utf8Loop_encodeChar c.toNat hv _ acc, ih]
      simp

/-- The byte-level UTF-8 round trip: decoding what `encode('utf-8')`
produced yields the original text. -/
theorem utf8DecodeStr_utf8Bytes (s : String) : utf8DecodeStr (utf8Bytes s) = some s := by
  rw [utf8DecodeStr, utf8Bytes, utf8Decode, utf8Loop_bytes]
  simp only [List.reverse_nil, List.nil_append, Option.map_some', List.map_map]
  have h : s.toList.map (fun c => Char.ofNat c.toNat) = s.toList := by
    induction s.toList with
    | nil => rfl
    | cons c cs ih => simp [char_ofNat_toNat, ih]
  simp only [Function.comp_def, Function.comp]
  rw [h]
  rfl

/-! ### Storage-encoding helper lemmas -/

theorem b64Encode_classify (bs : List Nat) (hb : ∀ b ∈ bs, b < 256) :
    ∀ c ∈ b64Encode bs, c = '=' ∨ ∃ v, v < 64 ∧ c = b64EncChar v := by
  induction bs using b64Encode.induct with
  | case1 => simp [b64Encode]
  | case2 a =>
      have ha : a < 256 := hb a (by simp)
      intro c hc
      simp only [b64Encode, List.mem_cons, List.not_mem_nil, or_false] at hc
      rcases hc with h | h | h | h
      · exact Or.inr ⟨a / 4, by omega, h⟩
      · exact Or.inr ⟨a % 4 * 16, by omega, h⟩
      · exact Or.inl h
      · exact Or.inl h
  | case3 a b =>
      have ha : a < 256 := hb a (by simp)
      have hbb : b < 256 := hb b (by simp)
      intro c hc
      simp only [b64Encode, List.mem_cons, List.not_mem_nil, or_false] at hc
      rcases hc with h | h | h | h
      · exact Or.inr ⟨a / 4, by omega, h⟩
      · exact Or.inr ⟨a % 4 * 16 + b / 16, by omega, h⟩
      · exact Or.inr ⟨b % 16 * 4, by omega, h⟩
      · exact Or.inl h
  | case4 a b c rest ih =>
      have ha : a < 256 := hb a (by simp)
      have hbb : b < 256 := hb b (by simp)
      have hcc : c < 256 := hb c (by simp)
      intro ch hch
      simp only [b64Encode, List.mem_cons] at hch
      rcases hch with h | h | h | h | h
      · exact Or.inr ⟨a / 4, by omega, h⟩
      · exact Or.inr ⟨a % 4 * 16 + b / 16, by omega, h⟩
      · exact Or.inr ⟨b % 16 * 4 + c / 64, by omega, h⟩
      · exact Or.inr ⟨c % 64, by omega, h⟩
      · exact ih (fun x hx => hb x (by simp [hx])) ch h

/-- The storage round trip: lax-decoding a `b64encode` result restores
the bytes. -/
theorem pyB64Decode_b64Encode (bs : List Nat) (hb : ∀ b ∈ bs, b < 256) :
    pyB64Decode (b64Encode bs) = some bs := by
  rw [pyB64Decode, if_pos, a2bBase64_b64Encode _ hb]
  · simp
  · rw [List.all_eq_true]
    intro c hc
    rcases b64Encode_classify bs hb c hc with h | ⟨v, hv, rfl⟩
    · rw [h]
      decide
    · simpa using b64EncChar_ascii v hv

/-- The cipher-layer round trip (`decrypt` after `encrypt`), for any
sound Fernet collaborator and any derived key made of bytes. -/
theorem decrypt_encrypt (F : FernetLike) (hF : F.Sound)
    (kdf : String → List Nat → List Nat) (data passphrase : String) (salt : List Nat)
    (hk : ∀ b ∈ kdf passphrase salt, b < 256) :
    decrypt F kdf (encrypt F kdf data passphrase salt) passphrase salt = .ok data := by
  rw [encrypt, decrypt]
  simp only [pyB64Decode_b64Encode _ (hF.enc_bytes _ _ hk (utf8Bytes_lt data)),
    hF.dec_enc, utf8DecodeStr_utf8Bytes]

/-! ### Lifecycle helper lemmas -/

theorem removeId_spec (store : List SecretRec) (pk : Nat) :
    ∀ r ∈ removeId store pk, ¬ r.id = pk := by
  intro r hr
  unfold removeId at hr
  have := List.of_mem_filter hr
  simpa using this

theorem mem_removeId (store : List SecretRec) (pk : Nat) (r : SecretRec) :
    r ∈ removeId store pk ↔ r ∈ store ∧ ¬ r.id = pk := by
  unfold removeId
  rw [List.mem_filter]
  simp

theorem mem_availableFilter (now : Int) (store : List SecretRec) (r : SecretRec) :
    r ∈ availableFilter now store ↔ r ∈ store ∧ now - expirationWindow ≤ r.created_at := by
  unfold availableFilter
  rw [List.mem_filter]
  simp

/-- A reveal whose token decodes to an identifier no stored row carries
reports `NotFound` and changes nothing. -/
theorem reveal_eq_notFound_of_absent (F : FernetLike) (kdf : String → List Nat → List Nat)
    (store : List SecretRec) (t1 t2 : Int) (tok : List Char) (pass : String) (pk : Nat)
    (hd : decode_id tok = some pk) (habs : ∀ r ∈ store, ¬ r.id = pk) :
    reveal F kdf store t1 t2 tok pass = (.notFound, store) := by
  have hnone : (availableFilter t1 store).find? (fun r => r.id == pk) = none := by
    rw [List.find?_eq_none]
    intro r hr
    have hmem : r ∈ store := ((mem_availableFilter t1 store r).1 hr).1
    simpa using habs r hmem
  simp only [reveal, hd, hnone]

/-- A reveal that finds a row but fails decryption with `InvalidToken`
reports `WrongPassphrase` and changes nothing. -/
theorem reveal_eq_wrongPassphrase (F : FernetLike) (kdf : String → List Nat → List Nat)
    (store : List SecretRec) (t1 t2 : Int) (tok : List Char) (pass : String) (pk : Nat)
    (r : SecretRec) (hd : decode_id tok = some pk)
    (hf : (availableFilter t1 store).find? (fun s => s.id == pk) = some r)
    (hc : clean_passphrase F kdf r pass = .error .validationError) :
    reveal F kdf store t1 t2 tok pass = (.wrongPassphrase, store) := by
  simp only [reveal, hd, hf, hc]

/-- A reveal that finds a row but crashes in decryption (an exception
other than `InvalidToken`) reports a server error and changes nothing. -/
theorem reveal_eq_serverError (F : FernetLike) (kdf : String → List Nat → List Nat)
    (store : List SecretRec) (t1 t2 : Int) (tok : List Char) (pass : String) (pk : Nat)
    (r : SecretRec) (e : DecryptError) (hd : decode_id tok = some pk)
    (hf : (availableFilter t1 store).find? (fun s => s.id == pk) = some r)
    (hc : clean_passphrase F kdf r pass = .error (.uncaught e)) :
    reveal F kdf store t1 t2 tok pass = (.serverError e, store) := by
  simp only [reveal, hd, hf, hc]

/-- A reveal that finds a row, decrypts it, and is still inside the
window at the re-check deletes the row and returns the plaintext. -/
theorem reveal_eq_revealed (F : FernetLike) (kdf : String → List Nat → List Nat)
    (store : List SecretRec) (t1 t2 : Int) (tok : List Char) (pass : String) (pk : Nat)
    (r : SecretRec) (plain : String) (hd : decode_id tok = some pk)
    (hf : (availableFilter t1 store).find? (fun s => s.id == pk) = some r)
    (hc : clean_passphrase F kdf r pass = .ok plain)
    (ht : ¬ r.created_at < t2 - expirationWindow) :
    reveal F kdf store t1 t2 tok pass = (.revealed plain, removeId store r.id) := by
  simp only [reveal, hd, hf, hc, if_neg ht]

/-- A reveal that finds a row and decrypts it but is past the window at
the re-check deletes the row and reports `NotFound`. -/
theorem reveal_eq_expired_recheck (F : FernetLike) (kdf : String → List Nat → List Nat)
    (store : List SecretRec) (t1 t2 : Int) (tok : List Char) (pass : String) (pk : Nat)
    (r : SecretRec) (plain : String) (hd : decode_id tok = some pk)
    (hf : (availableFilter t1 store).find? (fun s => s.id == pk) = some r)
    (hc : clean_passphrase F kdf r pass = .ok plain)
    (ht : r.created_at < t2 - expirationWindow) :
    reveal F kdf store t1 t2 tok pass = (.notFound, removeId store r.id) := by
  simp only [reveal, hd, hf, hc, if_pos ht]

/-- Inversion: a successful reveal came from a decoded token, a found
available row, a successful decryption, a passed re-check, and deleted
exactly that row. -/
theorem reveal_revealed_inv (F : FernetLike) (kdf : String → List Nat → List Nat)
    (store s2 : List SecretRec) (t1 t2 : Int) (tok : List Char) (pass p : String)
    (h : reveal F kdf store t1 t2 tok pass = (.revealed p, s2)) :
    ∃ pk r, decode_id tok = some pk ∧
      (availableFilter t1 store).find? (fun s => s.id == pk) = some r ∧ r.id = pk ∧
      clean_passphrase F kdf r pass = .ok p ∧
      ¬ r.created_at < t2 - expirationWindow ∧ s2 = removeId store pk := by
  unfold reveal at h
  split at h
  · simp at h
  next pk hd =>
    split at h
    · simp at h
    next r hf =>
      split at h
      · simp at h
      · simp at h
      next plain hc =>
        split at h
        next ht => simp at h
        next ht =>
          simp only [Prod.mk.injEq, RevealOutcome.revealed.injEq] at h
          have hr : r.id = pk := by
            simpa using List.find?_some hf
          exact ⟨pk, r, hd, hf, hr, h.1 ▸ hc, ht, by rw [← h.2, hr]⟩

/-- Inversion: a `WrongPassphrase` outcome leaves the store untouched. -/
theorem reveal_wrongPassphrase_inv (F : FernetLike) (kdf : String → List Nat → List Nat)
    (store s2 : List SecretRec) (t1 t2 : Int) (tok : List Char) (pass : String)
    (h : reveal F kdf store t1 t2 tok pass = (.wrongPassphrase, s2)) : s2 = store := by
  unfold reveal at h
  split at h
  · simp at h
  next pk hd =>
    split at h
    · simp at h
    next r hf =>
      split at h
      · simp at h
        exact h.symm
      · simp at h
      next plain hc =>
        split at h
        · simp at h
        · simp at h

/-! ### Well-formedness of lax base64 output (for decoder totality) -/

theorem b64DecVal_lt (c : Char) (v : Nat) (h : b64DecVal c = some v) : v < 64 := by
  have hlt := (List.findIdx?_eq_some_iff_findIdx_eq.1 h).1
  simpa using hlt

theorem a2bBase64_all_lt (cs : List Char) : ∀ qp l pads acc bs,
    (qp = 1 → l < 64) → (qp = 2 → l < 16) → (∀ b ∈ acc, b < 256) →
    a2bBase64 cs qp l pads acc = some bs → ∀ b ∈ bs, b < 256 := by
  induction cs with
  | nil =>
      intro qp l pads acc bs h1 h2 hacc heq
      rw [a2bBase64] at heq
      split at heq
      · intro b hb
        cases heq
        exact hacc b (by simpa using hb)
      · cases heq
  | cons ch rest ih =>
      intro qp l pads acc bs h1 h2 hacc heq
      rw [a2bBase64] at heq
      split at heq
      · split at heq
        · split at heq
          · intro b hb
            cases heq
            exact hacc b (by simpa using hb)
          · exact ih _ _ _ _ _ h1 h2 hacc heq
        · exact ih _ _ _ _ _ h1 h2 hacc heq
      · split at heq
        · exact ih _ _ _ _ _ h1 h2 hacc heq
        next v hv =>
          have hv64 : v < 64 := b64DecVal_lt ch v hv
          split at heq
          · exact ih _ _ _ _ _ (fun _ => hv64) (by omega) hacc heq
          · have hl : l < 64 := h1 rfl
            refine ih _ _ _ _ _ (by omega) (fun _ => by omega) ?_ heq
            intro b hb
            rcases List.mem_cons.1 hb with rfl | hb2
            · omega
            · exact hacc b hb2
          · have hl : l < 16 := h2 rfl
            refine ih _ _ _ _ _ (by omega) (by omega) ?_ heq
            intro b hb
            rcases List.mem_cons.1 hb with rfl | hb2
            · omega
            · exact hacc b hb2
          · refine ih _ _ _ _ _ (by omega) (by omega) ?_ heq
            intro b hb
            rcases List.mem_cons.1 hb with rfl | hb2
            · omega
            · exact hacc b hb2

theorem natFromBytesBE_lt (bs : List Nat) (h : ∀ b ∈ bs, b < 256) :
    natFromBytesBE bs < 256 ^ bs.length := by
  suffices hgen : ∀ a, bs.foldl (fun x b => x * 256 + b) a < (a + 1) * 256 ^ bs.length by
    have := hgen 0
    simpa [natFromBytesBE] using this
  induction bs with
  | nil =>
      intro a
      simp
  | cons b rest ih =>
      intro a
      rw [List.foldl_cons]
      calc (rest.foldl (fun x c => x * 256 + c) (a * 256 + b))
          < (a * 256 + b + 1) * 256 ^ rest.length :=
            ih (fun c hc => h c (by simp [hc])) (a * 256 + b)
        _ ≤ (a + 1) * 256 ^ (rest.length + 1) := by
            have hb : b < 256 := h b (by simp)
            rw [pow_succ]
            have h1 : a * 256 + b + 1 ≤ (a + 1) * 256 := by omega
            calc (a * 256 + b + 1) * 256 ^ rest.length
                ≤ (a + 1) * 256 * 256 ^ rest.length :=
                  Nat.mul_le_mul_right _ h1
              _ = (a + 1) * (256 ^ rest.length * 256) := by ring
        _ = (a + 1) * 256 ^ (b :: rest).length := by simp

/-! ## Claims -/

/-- C5: Token codec round trip: for every valid 128-bit identifier `x`,
decoding the encoding of `x` returns `x`, where `encode_id` is the
URL-safe base64 encoding of the raw 16-byte representation with trailing
padding stripped and `decode_id` restores the stripped padding before
the inverse transform. -/
theorem C5_token_codec_roundtrip (x : Nat) (hx : x < 2 ^ 128) :
    decode_id (encode_id x) = some x :=
  decode_id_encode_id x hx

theorem C5_token_codec_roundtrip_witness :
    (81985529216486895 : Nat) < 2 ^ 128 ∧
      decode_id (encode_id 81985529216486895) = some 81985529216486895 :=
  ⟨by decide, C5_token_codec_roundtrip 81985529216486895 (by decide)⟩

/-- C3: Cipher round trip: for every UTF-8 string `p` (including the
empty string and arbitrary multi-byte Unicode) and every key derived from
any (passphrase, salt) pair by a byte-producing derivation, decrypting
the encryption of `p` under the same passphrase and salt returns exactly
`p`, as text: the payload is carried as UTF-8 bytes and decoded back. -/
theorem C3_cipher_roundtrip (F : FernetLike) (kdf : String → List Nat → List Nat)
    (p passphrase : String) (salt : List Nat) (hF : F.Sound)
    (hk : ∀ b ∈ kdf passphrase salt, b < 256) :
    decrypt F kdf (encrypt F kdf p passphrase salt) passphrase salt = .ok p :=
  decrypt_encrypt F hF kdf p passphrase salt hk

theorem C3_cipher_roundtrip_witness :
    tagFernet.Sound ∧ (∀ b ∈ bytesKdf "pw" [1, 2], b < 256) ∧
    decrypt tagFernet bytesKdf (encrypt tagFernet bytesKdf "héllo 🌍" "pw" [1, 2]) "pw" [1, 2]
      = .ok "héllo 🌍" ∧
    decrypt tagFernet bytesKdf (encrypt tagFernet bytesKdf "" "pw" [1, 2]) "pw" [1, 2]
      = .ok "" :=
  ⟨tagFernet_sound, by decide,
   C3_cipher_roundtrip tagFernet bytesKdf "héllo 🌍" "pw" [1, 2] tagFernet_sound (by decide),
   C3_cipher_roundtrip tagFernet bytesKdf "" "pw" [1, 2] tagFernet_sound (by decide)⟩

/-- C8: Key-derivation purity: two derivations with the same passphrase
and the same 16-byte salt always produce the same key, even when run in
different process environments (different `settings.SECRET_KEY`): the
output depends on exactly the two inputs and no process-wide secret. -/
theorem C8_key_derivation_purity (env1 env2 : DjangoSettings) (p1 p2 : String)
    (s1 s2 : List Nat) (hp : p1 = p2) (hs : s1 = s2) :
    passphrase_to_key_in_env env1 p1 s1 = passphrase_to_key_in_env env2 p2 s2 := by
  subst hp
  subst hs
  rfl

theorem C8_key_derivation_purity_witness :
    ("hunter2" : String) = "hunter2" ∧ ([0, 1] : List Nat) = [0, 1] ∧
    passphrase_to_key_in_env ⟨"django-insecure-A"⟩ "hunter2" [0, 1]
      = passphrase_to_key_in_env ⟨"django-insecure-B"⟩ "hunter2" [0, 1] :=
  ⟨rfl, rfl,
   C8_key_derivation_purity ⟨"django-insecure-A"⟩ ⟨"django-insecure-B"⟩ _ _ _ _ rfl rfl⟩

/-- C9: Size boundary at create: a payload of UTF-8 byte length at most
`50 * 1024` passes validation and is returned unchanged (no truncation);
a payload one byte longer (or more) is rejected with a `ValidationError`
before any sealing, and nothing is stored. -/
theorem C9_size_boundary (p passphrase : String) (F : FernetLike)
    (kdf : String → List Nat → List Nat) (newId : Nat) (newSalt : List Nat)
    (now : Int) (store : List SecretRec) :
    ((utf8Bytes p).length ≤ 50 * 1024 → clean_data p = .ok p) ∧
    (50 * 1024 < (utf8Bytes p).length → clean_data p = .error .tooLarge ∧
      create_secret F kdf p passphrase newId newSalt now store = .error .tooLarge) := by
  constructor
  · intro h
    rw [clean_data, if_neg (by omega)]
  · intro h
    have hc : clean_data p = .error .tooLarge := by
      rw [clean_data, if_pos h]
    refine ⟨hc, ?_⟩
    simp only [create_secret, hc]

theorem flatten_replicate_singleton (n : Nat) :
    (List.replicate n [(97 : Nat)]).flatten.length = n := by
  induction n with
  | zero => rfl
  | succ m ih => simp [List.replicate_succ, List.flatten_cons, ih]

theorem utf8Bytes_replicate_a (n : Nat) :
    (utf8Bytes (String.mk (List.replicate n 'a'))).length = n := by
  have hl : (String.mk (List.replicate n 'a')).toList = List.replicate n 'a' := rfl
  rw [utf8Bytes, hl, List.map_replicate,
    show utf8EncodeChar ('a'.toNat) = [97] by decide]
  exact flatten_replicate_singleton n

theorem C9_size_boundary_witness :
    (utf8Bytes (String.mk (List.replicate 51200 'a'))).length ≤ 50 * 1024 ∧
    clean_data (String.mk (List.replicate 51200 'a'))
      = .ok (String.mk (List.replicate 51200 'a')) ∧
    50 * 1024 < (utf8Bytes (String.mk (List.replicate 51201 'a'))).length ∧
    clean_data (String.mk (List.replicate 51201 'a')) = .error .tooLarge := by
  have h1 := utf8Bytes_replicate_a 51200
  have h2 := utf8Bytes_replicate_a 51201
  refine ⟨by omega, ?_, by omega, ?_⟩
  · exact (C9_size_boundary (String.mk (List.replicate 51200 'a')) "pw" tagFernet bytesKdf
      0 [] 0 []).1 (by omega)
  · exact ((C9_size_boundary (String.mk (List.replicate 51201 'a')) "pw" tagFernet bytesKdf
      0 [] 0 []).2 (by omega)).1

/-- C6 counterexample: `decode_id` of a 26-character string containing
`'!'` — a character outside the URL-safe base64 alphabet, in a string not
of the expected 22-character token length — returns a decoded identifier
rather than the failure result, because the lax CPython decoder discards
characters outside the alphabet before decoding. -/
theorem C6_decode_rejection_counterexample :
    decode_id ("!!!!AAAAAAAAAAAAAAAAAAAAAA".toList) = some 0 ∧
    ("!!!!AAAAAAAAAAAAAAAAAAAAAA".toList).length = 26 ∧
    '!' ∈ "!!!!AAAAAAAAAAAAAAAAAAAAAA".toList ∧
    b64DecVal (urlsafeToStd '!') = none := by decide

/-- C6 amended: `decode_id` is total — it never raises; every input maps
either to the explicit failure result `none` (when the padding
completion, the lax base64 decode, or the 16-byte length check fails) or
to a well-formed 128-bit identifier.  (As stated the claim is false:
characters outside the alphabet are discarded, not rejected, so a string
of the wrong length or alphabet can still decode — see the
counterexample.) -/
theorem C6_decode_totality (cs : List Char) :
    decode_id cs = none ∨ ∃ x, x < 2 ^ 128 ∧ decode_id cs = some x := by
  cases hp : pyB64Decode ((addPadding cs).map urlsafeToStd) with
  | none =>
      left
      simp only [decode_id, hp]
  | some bs =>
      by_cases hlen : bs.length = 16
      · right
        refine ⟨natFromBytesBE bs, ?_, by simp only [decode_id, hp, if_pos hlen]⟩
        have hb : ∀ b ∈ bs, b < 256 := by
          rw [pyB64Decode] at hp
          split at hp
          · exact a2bBase64_all_lt _ 0 0 0 [] bs (by omega) (by omega) (by simp) hp
          · cases hp
        have hlt := natFromBytesBE_lt bs hb
        rw [hlen] at hlt
        calc natFromBytesBE bs < 256 ^ 16 := hlt
          _ = 2 ^ 128 := by norm_num
      · left
        simp only [decode_id, hp, if_neg hlen]

/-- C4 counterexample: for the stored form `"A"` (one character, not
decodable base64) the failure inside `open` is an uncaught
`binascii.Error`, not the uniform authentication-failure outcome: the
`try/except InvalidToken` at the form boundary does not catch it. -/
theorem C4_uniform_failure_counterexample :
    clean_passphrase tagFernet bytesKdf ⟨0, ['A'], [], 0⟩ "pw"
      = .error (.uncaught .binasciiError) ∧
    ¬ clean_passphrase tagFernet bytesKdf ⟨0, ['A'], [], 0⟩ "pw"
      = .error .validationError := by decide

/-- C4 amended: for every stored form accepted by the storage base64
layer, any decryption failure of the authenticated cipher (tag mismatch,
key derived from the wrong passphrase) surfaces as the single uniform
validation error; but a stored form the base64 layer rejects (malformed
storage encoding) raises an uncaught `binascii.Error` that propagates out
of the `open` boundary instead of being converted. -/
theorem C4_fail_closed_amended (F : FernetLike) (kdf : String → List Nat → List Nat)
    (r : SecretRec) (pass : String) :
    (∀ tb, pyB64Decode r.data = some tb → F.dec (kdf pass r.salt) tb = none →
      clean_passphrase F kdf r pass = .error .validationError) ∧
    (pyB64Decode r.data = none →
      clean_passphrase F kdf r pass = .error (.uncaught .binasciiError)) := by
  constructor
  · intro tb hb hdec
    simp only [clean_passphrase, decrypt, hb, hdec]
  · intro hb
    simp only [clean_passphrase, decrypt, hb]

theorem C4_fail_closed_amended_witness :
    pyB64Decode (b64Encode [9]) = some [9] ∧
    tagFernet.dec (bytesKdf "pw" []) [9] = none ∧
    clean_passphrase tagFernet bytesKdf ⟨0, b64Encode [9], [], 0⟩ "pw"
      = .error .validationError ∧
    pyB64Decode ['A'] = none ∧
    clean_passphrase tagFernet bytesKdf ⟨1, ['A'], [], 0⟩ "pw"
      = .error (.uncaught .binasciiError) :=
  ⟨by decide, by decide,
   (C4_fail_closed_amended tagFernet bytesKdf ⟨0, b64Encode [9], [], 0⟩ "pw").1 [9]
     (by decide) (by decide),
   by decide,
   (C4_fail_closed_amended tagFernet bytesKdf ⟨1, ['A'], [], 0⟩ "pw").2 (by decide)⟩

/-- C2 counterexample: a stored record whose ciphertext column holds the
non-base64-decodable `"A"` is a record whose decryption fails, yet the
reveal attempt does not return `WrongPassphrase`: it surfaces an
unhandled server error (the uncaught `binascii.Error`).  The record is
still not deleted. -/
theorem C2_wrong_passphrase_counterexample :
    reveal tagFernet bytesKdf [⟨0, ['A'], [], 0⟩] 0 0
        ("AAAAAAAAAAAAAAAAAAAAAA".toList) "pw"
      = (.serverError .binasciiError, [⟨0, ['A'], [], 0⟩]) ∧
    ¬ (reveal tagFernet bytesKdf [⟨0, ['A'], [], 0⟩] 0 0
        ("AAAAAAAAAAAAAAAAAAAAAA".toList) "pw").1 = .wrongPassphrase := by decide

/-- C2 amended: a reveal attempt whose decryption fails with the
authenticated cipher's `InvalidToken` (wrong passphrase, or corrupted
ciphertext that still passes the storage base64 layer) returns
`WrongPassphrase` and leaves the store entirely unchanged, so a
subsequent reveal with the correct passphrase (while the record is still
available) succeeds and returns the plaintext.  (Corruption that breaks
the storage base64 layer instead crashes with an uncaught error — see
the counterexample — though it, too, leaves the record in place.) -/
theorem C2_wrong_passphrase_preserves (F : FernetLike) (kdf : String → List Nat → List Nat)
    (store : List SecretRec) (t1 t2 t3 t4 : Int) (tok : List Char)
    (wrong correct plain : String) (pk : Nat) (r : SecretRec)
    (hF : F.Sound) (hk : ∀ b ∈ kdf correct r.salt, b < 256)
    (hd : decode_id tok = some pk)
    (hf1 : (availableFilter t1 store).find? (fun s => s.id == pk) = some r)
    (hwrong : clean_passphrase F kdf r wrong = .error .validationError)
    (hdata : r.data = encrypt F kdf plain correct r.salt)
    (hf3 : (availableFilter t3 store).find? (fun s => s.id == pk) = some r)
    (ht4 : ¬ r.created_at < t4 - expirationWindow) :
    reveal F kdf store t1 t2 tok wrong = (.wrongPassphrase, store) ∧
    reveal F kdf store t3 t4 tok correct = (.revealed plain, removeId store r.id) := by
  refine ⟨reveal_eq_wrongPassphrase F kdf store t1 t2 tok wrong pk r hd hf1 hwrong, ?_⟩
  have hc : clean_passphrase F kdf r correct = .ok plain := by
    simp only [clean_passphrase, hdata, decrypt_encrypt F hF kdf plain correct r.salt hk]
  exact reveal_eq_revealed F kdf store t3 t4 tok correct pk r plain hd hf3 hc ht4

theorem C2_wrong_passphrase_preserves_witness :
    clean_passphrase tagFernet bytesKdf
        ⟨0, encrypt tagFernet bytesKdf "hi" "pw" [7], [7], 0⟩ "xx"
      = .error .validationError ∧
    reveal tagFernet bytesKdf
        [⟨0, encrypt tagFernet bytesKdf "hi" "pw" [7], [7], 0⟩] 0 0
        ("AAAAAAAAAAAAAAAAAAAAAA".toList) "xx"
      = (.wrongPassphrase, [⟨0, encrypt tagFernet bytesKdf "hi" "pw" [7], [7], 0⟩]) ∧
    reveal tagFernet bytesKdf
        [⟨0, encrypt tagFernet bytesKdf "hi" "pw" [7], [7], 0⟩] 1 1
        ("AAAAAAAAAAAAAAAAAAAAAA".toList) "pw"
      = (.revealed "hi",
         removeId [⟨0, encrypt tagFernet bytesKdf "hi" "pw" [7], [7], 0⟩] 0) := by
  have h := C2_wrong_passphrase_preserves tagFernet bytesKdf
    [⟨0, encrypt tagFernet bytesKdf "hi" "pw" [7], [7], 0⟩] 0 0 1 1
    ("AAAAAAAAAAAAAAAAAAAAAA".toList) "xx" "pw" "hi" 0
    ⟨0, encrypt tagFernet bytesKdf "hi" "pw" [7], [7], 0⟩
    tagFernet_sound (by decide) (by decide) (by decide) (by decide) rfl
    (by decide) (by decide)
  exact ⟨by decide, h.1, h.2⟩

/-- C1: One-time read: whenever a reveal succeeds and returns plaintext,
the record is already gone from the store that the request leaves behind
(deletion precedes the plaintext reaching the caller), and every later
reveal of the same token — at any time, with any passphrase — returns
`NotFound` and changes nothing: the consumed state is terminal. -/
theorem C1_one_time_read (F : FernetLike) (kdf : String → List Nat → List Nat)
    (store s2 : List SecretRec) (t1 t2 : Int) (tok : List Char) (pass p : String)
    (h : reveal F kdf store t1 t2 tok pass = (.revealed p, s2)) :
    (∀ r ∈ s2, ¬ decode_id tok = some r.id) ∧
    (∀ t3 t4 : Int, ∀ pass2 : String,
      reveal F kdf s2 t3 t4 tok pass2 = (.notFound, s2)) := by
  obtain ⟨pk, r, hd, hf, hr, hc, ht, hs2⟩ :=
    reveal_revealed_inv F kdf store s2 t1 t2 tok pass p h
  subst hs2
  constructor
  · intro r2 hr2 hcon
    rw [hd] at hcon
    injection hcon with h2
    exact removeId_spec store pk r2 hr2 h2.symm
  · intro t3 t4 pass2
    exact reveal_eq_notFound_of_absent F kdf _ t3 t4 tok pass2 pk hd (removeId_spec store pk)

theorem C1_one_time_read_witness :
    reveal tagFernet bytesKdf [⟨0, encrypt tagFernet bytesKdf "top" "pw" [5], [5], 0⟩] 0 0
        ("AAAAAAAAAAAAAAAAAAAAAA".toList) "pw"
      = (.revealed "top", []) ∧
    reveal tagFernet bytesKdf [] 900 900 ("AAAAAAAAAAAAAAAAAAAAAA".toList) "guess"
      = (.notFound, []) := by
  have h := C1_one_time_read tagFernet bytesKdf
    [⟨0, encrypt tagFernet bytesKdf "top" "pw" [5], [5], 0⟩] [] 0 0
    ("AAAAAAAAAAAAAAAAAAAAAA".toList) "pw" "top" (by decide)
  exact ⟨by decide, h.2 900 900 "guess"⟩

/-- C10: The consumed state is represented solely by deletion: the stored
record type has exactly the four fields id, ciphertext data, salt and
created_at (two records agreeing on them are equal — no consumed flag or
read counter exists), a record participates in the availability lookup
exactly when its row still exists (and is in the window), and after a
successful reveal no row with that identifier remains in storage. -/
theorem C10_consumed_is_deletion (F : FernetLike) (kdf : String → List Nat → List Nat)
    (store s2 : List SecretRec) (t1 t2 now : Int) (tok : List Char) (pass p : String)
    (r0 : SecretRec) :
    (∀ r1 r2 : SecretRec, r1.id = r2.id → r1.data = r2.data → r1.salt = r2.salt →
      r1.created_at = r2.created_at → r1 = r2) ∧
    (r0 ∈ availableFilter now store ↔
      r0 ∈ store ∧ now - expirationWindow ≤ r0.created_at) ∧
    (reveal F kdf store t1 t2 tok pass = (.revealed p, s2) →
      ∃ pk, decode_id tok = some pk ∧ s2 = removeId store pk ∧ ∀ r ∈ s2, ¬ r.id = pk) := by
  refine ⟨?_, mem_availableFilter now store r0, ?_⟩
  · intro r1 r2 h1 h2 h3 h4
    cases r1
    cases r2
    simp_all
  · intro h
    obtain ⟨pk, r, hd, hf, hr, hc, ht, hs2⟩ :=
      reveal_revealed_inv F kdf store s2 t1 t2 tok pass p h
    refine ⟨pk, hd, hs2, ?_⟩
    rw [hs2]
    exact removeId_spec store pk

theorem C10_consumed_is_deletion_witness :
    ((⟨0, [], [], 0⟩ : SecretRec) ∈ availableFilter 0 [⟨0, [], [], 0⟩] ↔
      (⟨0, [], [], 0⟩ : SecretRec) ∈ [(⟨0, [], [], 0⟩ : SecretRec)] ∧
        (0 : Int) - expirationWindow ≤ 0) ∧
    (∃ pk, decode_id ("AAAAAAAAAAAAAAAAAAAAAA".toList) = some pk ∧
      ([] : List SecretRec)
        = removeId [⟨0, encrypt tagFernet bytesKdf "yo" "pw" [3], [3], 0⟩] pk ∧
      ∀ r ∈ ([] : List SecretRec), ¬ r.id = pk) := by
  refine ⟨?_, ?_⟩
  · exact (C10_consumed_is_deletion tagFernet bytesKdf [⟨0, [], [], 0⟩] [] 0 0 0
      ("AAAAAAAAAAAAAAAAAAAAAA".toList) "pw" "yo" ⟨0, [], [], 0⟩).2.1
  · exact (C10_consumed_is_deletion tagFernet bytesKdf
      [⟨0, encrypt tagFernet bytesKdf "yo" "pw" [3], [3], 0⟩] [] 0 0 0
      ("AAAAAAAAAAAAAAAAAAAAAA".toList) "pw" "yo" ⟨0, [], [], 0⟩).2.2 (by decide)

/-- C7 counterexample: the availability window is inclusive, not strict:
a record whose age is exactly 10 minutes (600 seconds) is still in the
`available` queryset (`created_at__gte = now - 10 minutes`), although it
is not strictly within the last 10 minutes — refuting the claimed "if
and only if strictly within" characterization at the boundary. -/
theorem C7_availability_window_counterexample :
    (⟨0, [], [], 0⟩ : SecretRec) ∈ availableFilter 600 [⟨0, [], [], 0⟩] ∧
    ¬ ((600 : Int) - (⟨0, [], [], 0⟩ : SecretRec).created_at < 600) := by decide

/-- C7 amended: a record is visible to the retrieval path iff it still
exists and its `created_at` is within the last 10 minutes inclusive
(`now - 600 ≤ created_at`); a record 11 minutes old yields `NotFound`
even with the correct passphrase; a record at its creation instant is
available; and the expiration check is re-verified at the moment of
reveal with a strict comparison, deleting the record and treating it as
`NotFound` when its age then exceeds 10 minutes. -/
theorem C7_availability_window_amended (F : FernetLike)
    (kdf : String → List Nat → List Nat) (store : List SecretRec) (t1 t2 now : Int)
    (tok : List Char) (pass : String) (pk : Nat) (r : SecretRec) :
    (r ∈ availableFilter now store ↔
      r ∈ store ∧ now - expirationWindow ≤ r.created_at) ∧
    (decode_id tok = some pk → (∀ s ∈ store, s.id = pk → s.created_at ≤ t1 - 660) →
      reveal F kdf store t1 t2 tok pass = (.notFound, store)) ∧
    (r ∈ store → r.created_at = now → r ∈ availableFilter now store) ∧
    (decode_id tok = some pk →
      (availableFilter t1 store).find? (fun s => s.id == pk) = some r →
      ∀ plain, clean_passphrase F kdf r pass = .ok plain →
      r.created_at < t2 - expirationWindow →
      reveal F kdf store t1 t2 tok pass = (.notFound, removeId store r.id)) := by
  have hw : expirationWindow = 600 := rfl
  refine ⟨mem_availableFilter now store r, ?_, ?_, ?_⟩
  · intro hd hold
    have hnone : (availableFilter t1 store).find? (fun s => s.id == pk) = none := by
      rw [List.find?_eq_none]
      intro s hs
      have hmem := (mem_availableFilter t1 store s).1 hs
      simp only [beq_iff_eq]
      intro hid
      have := hold s hmem.1 hid
      omega
    simp only [reveal, hd, hnone]
  · intro hmem hcre
    refine (mem_availableFilter now store r).2 ⟨hmem, ?_⟩
    omega
  · intro hd hf plain hc ht
    exact reveal_eq_expired_recheck F kdf store t1 t2 tok pass pk r plain hd hf hc ht

theorem C7_availability_window_amended_witness :
    ((⟨0, [], [], 40⟩ : SecretRec) ∈ availableFilter 640 [⟨0, [], [], 40⟩] ↔
      (⟨0, [], [], 40⟩ : SecretRec) ∈ [(⟨0, [], [], 40⟩ : SecretRec)] ∧
        (640 : Int) - expirationWindow ≤ 40) ∧
    reveal tagFernet bytesKdf [⟨0, [], [], -660⟩] 0 0
        ("AAAAAAAAAAAAAAAAAAAAAA".toList) "pw"
      = (.notFound, [⟨0, [], [], -660⟩]) ∧
    (⟨0, [], [], 5⟩ : SecretRec) ∈ availableFilter 5 [⟨0, [], [], 5⟩] ∧
    reveal tagFernet bytesKdf
        [⟨0, encrypt tagFernet bytesKdf "late" "pw" [9], [9], 0⟩] 0 700
        ("AAAAAAAAAAAAAAAAAAAAAA".toList) "pw"
      = (.notFound,
         removeId [⟨0, encrypt tagFernet bytesKdf "late" "pw" [9], [9], 0⟩] 0) := by
  refine ⟨?_, ?_, ?_, ?_⟩
  · exact (C7_availability_window_amended tagFernet bytesKdf [⟨0, [], [], 40⟩] 0 0 640
      ("AAAAAAAAAAAAAAAAAAAAAA".toList) "pw" 0 ⟨0, [], [], 40⟩).1
  · exact (C7_availability_window_amended tagFernet bytesKdf [⟨0, [], [], -660⟩] 0 0 0
      ("AAAAAAAAAAAAAAAAAAAAAA".toList) "pw" 0 ⟨0, [], [], -660⟩).2.1
      (by decide) (by decide)
  · exact (C7_availability_window_amended tagFernet bytesKdf [⟨0, [], [], 5⟩] 0 0 5
      ("AAAAAAAAAAAAAAAAAAAAAA".toList) "pw" 0 ⟨0, [], [], 5⟩).2.2.1
      (by decide) (by decide)
  · exact (C7_availability_window_amended tagFernet bytesKdf
      [⟨0, encrypt tagFernet bytesKdf "late" "pw" [9], [9], 0⟩] 0 700 0
      ("AAAAAAAAAAAAAAAAAAAAAA".toList) "pw" 0
      ⟨0, encrypt tagFernet bytesKdf "late" "pw" [9], [9], 0⟩).2.2.2
      (by decide) (by decide) "late" (by decide) (by decide)
